import Mathlib

/-!
# Verification of the zimpy ZIM-archive reader

A shallow embedding of the core of the `tonysln/zimpy` repository
(`zimpy.py`, `structs.py`, `zimpy/structs.py`, `zimpy/server.py`).

Byte buffers (Python `bytes` / `mmap`) are modelled as `List Nat`
(each element a byte value); Python strings obtained by `.decode()`
are kept as their byte lists (`decode` is modelled as the identity,
which is faithful for the comparisons the code performs, since Python
compares `str`/`bytes` lexicographically by code point / byte value).
Exceptions are modelled with `Except PyErr`; the `while` loops of the
source (`bisect`, redirect resolution, mimetype decoding) are modelled
with an explicit fuel (step-count) argument, where a result of `none`
means the loop has not finished within the given fuel — so
`∀ fuel, loop fuel = none` states that the source loop never terminates.
-/

/-- Python exception classes raised by the modelled code paths:
`IndexError`, `struct.error`. -/
inductive PyErr where
  | indexError : PyErr
  | structError : PyErr
deriving DecidableEq, Repr

/-- Index of the first occurrence of byte `b` in list `l` (`none` if absent). -/
def findFrom (l : List Nat) (b : Nat) : Option Nat :=
  match l with
  | [] => none
  | x :: xs => if x = b then some 0 else (findFrom xs b).map (· + 1)

/-- Python `buf.find(bytes([b]), start)`: index of the first occurrence of
byte `b` at position ≥ `start`, or `-1` when absent. -/
def findByte (buf : List Nat) (b : Nat) (start : Nat) : Int :=
  match findFrom (buf.drop start) b with
  | some k => ((start + k : Nat) : Int)
  | none => -1

/-- Normalise a Python slice endpoint to an index into a buffer of length
`len`: negative endpoints count from the end (clamped below at 0),
non-negative endpoints are clamped above at `len`. -/
def pyIdx (len : Nat) (i : Int) : Nat :=
  if i < 0 then (i + len).toNat else min i.toNat len

/-- Python slice `buf[a:b]`. -/
def pySlice (buf : List Nat) (a b : Int) : List Nat :=
  (buf.take (pyIdx buf.length b)).drop (pyIdx buf.length a)

/-- Value of a little-endian byte string (first byte least significant). -/
def leValue (bs : List Nat) : Nat :=
  match bs with
  | [] => 0
  | b :: rest => b + 256 * leValue rest

/-- `struct.unpack_from` of one unsigned little-endian integer of `width`
bytes at `offset`: `struct.error` when the buffer is too short
(this is what every `CTYPES[...].unpack_from` call in `structs.py` and
`zimpy/structs.py` does). -/
def readLE (buf : List Nat) (offset width : Nat) : Except PyErr Nat :=
  if offset + width ≤ buf.length then
    .ok (leValue ((buf.drop offset).take width))
  else
    .error .structError

/-- Python `bytes` / `str` comparison `a < b` (lexicographic). -/
def bytesLt : List Nat → List Nat → Bool
  | [], [] => false
  | [], _ :: _ => true
  | _ :: _, [] => false
  | a :: as, b :: bs => if a < b then true else if b < a then false else bytesLt as bs

/-! ## `bisect` (src/zimpy.py, lines 12–24)

```python
def bisect(compare_function, low, high):
    while low < high:
        middle = (low + high) // 2
        comp = compare_function(middle)
        if comp == 0:
            return middle
        if comp < 0:
            low = middle
        else:
            high = middle
    raise IndexError
```

The comparator itself may raise (propagated unchanged).  Fuel counts
loop iterations; `none` means the loop is still running after `fuel`
iterations. -/
def bisect (cmp : Nat → Except PyErr Int) (low high : Nat) :
    Nat → Option (Except PyErr Nat)
  | 0 => none
  | fuel + 1 =>
    if low < high then
      let middle := (low + high) / 2
      match cmp middle with
      | .error e => some (.error e)
      | .ok comp =>
        if comp = 0 then some (.ok middle)
        else if comp < 0 then bisect cmp middle high fuel
        else bisect cmp low middle fuel
    else
      some (.error .indexError)

/-- When the range has narrowed to a single index `low` (high = low + 1)
whose comparison reports the target lies to the right, `bisect` sets
`low = middle = low` and the loop state repeats forever. -/
theorem bisect_stuck (cmp : Nat → Except PyErr Int) (low : Nat) (c : Int)
    (hc : cmp low = .ok c) (hneg : c < 0) :
    ∀ fuel, bisect cmp low (low + 1) fuel = none := by
  intro fuel
  induction fuel with
  | zero => rfl
  | succ n ih =>
    have hmid : (low + (low + 1)) / 2 = low := by omega
    have hne : ¬ c = 0 := by omega
    simp only [bisect, Nat.lt_succ_self, if_pos, hmid, hc, hne, if_false,
      hneg, if_true, if_neg]
    exact ih

/-! ## Header (src/structs.py, lines 116–134; src/zimpy/structs.py, lines 97–112)

The 13 fixed fields of `Header._fields_`, packed little-endian, give the
byte offsets: magicNumber 0 (4), majorVersion 4 (2), minorVersion 6 (2),
uuid 8 (16), entryCount 24 (4), clusterCount 28 (4), urlPtrPos 32 (8),
titlePtrPos 40 (8), clusterPtrPos 48 (8), mimeListPos 56 (8),
mainPage 64 (4), layoutPage 68 (4), _checksumPos 72 (8).
Each accessor is an `AttributeDescriptor.__get__`, i.e. one
`unpack_from` at `offset + fieldOffset`. -/

def headerMagicNumber (mm : List Nat) : Except PyErr Nat := readLE mm 0 4

def headerMajorVersion (mm : List Nat) : Except PyErr Nat := readLE mm 4 2

def headerMinorVersion (mm : List Nat) : Except PyErr Nat := readLE mm 6 2

def headerEntryCount (mm : List Nat) : Except PyErr Nat := readLE mm 24 4

def headerClusterCount (mm : List Nat) : Except PyErr Nat := readLE mm 28 4

def headerUrlPtrPos (mm : List Nat) : Except PyErr Nat := readLE mm 32 8

def headerTitlePtrPos (mm : List Nat) : Except PyErr Nat := readLE mm 40 8

def headerClusterPtrPos (mm : List Nat) : Except PyErr Nat := readLE mm 48 8

def headerMimeListPos (mm : List Nat) : Except PyErr Nat := readLE mm 56 8

/-- The state built by `ZIMFile.__init__` (src/zimpy.py, lines 28–36):
the mapped buffer together with the header fields it actually reads. -/
structure ZimHandle where
  mm : List Nat
  mimeListPos : Nat
  urlPtrPos : Nat
  titlePtrPos : Nat
  clusterPtrPos : Nat
  majorVersion : Nat
  minorVersion : Nat
  entryCount : Nat
  clusterCount : Nat
deriving DecidableEq, Repr

/-- `ZIMFile.__init__` (src/zimpy.py, lines 28–36): constructs the
`Header` view (which reads nothing by itself), then the four list views
(each constructor reads one header position field), then
`print(self.header)` whose `__str__` reads the version and count fields.
Note: no field of the header is ever compared against an expected value
— in particular the magic number is never read, let alone checked. -/
def zimOpen (mm : List Nat) : Except PyErr ZimHandle := do
  let mimeListPos ← headerMimeListPos mm
  let urlPtrPos ← headerUrlPtrPos mm
  let titlePtrPos ← headerTitlePtrPos mm
  let clusterPtrPos ← headerClusterPtrPos mm
  let majorVersion ← headerMajorVersion mm
  let minorVersion ← headerMinorVersion mm
  let entryCount ← headerEntryCount mm
  let clusterCount ← headerClusterCount mm
  pure ⟨mm, mimeListPos, urlPtrPos, titlePtrPos, clusterPtrPos,
        majorVersion, minorVersion, entryCount, clusterCount⟩

/-! ## Dirent (src/structs.py, lines 137–180; src/zimpy/structs.py, lines 115–158)

`Dirent.__new__` peeks the 16-bit mimetype at the record offset:
`0xFFFF` selects `RedirectDirent` (fixed size 12: mimetype 2,
parameter_len 1, namespace 1, revision 4, redirect_index 4), anything
else the content/article variant (fixed size 16: same prefix, then
clusterNumber 4, blobNumber 4). -/

inductive DirentKind where
  | content : DirentKind
  | redirect : DirentKind
deriving DecidableEq, Repr

/-- `Dirent.__new__`: unpack the mimetype field and select the variant. -/
def direntKind (buf : List Nat) (offset : Nat) : Except PyErr DirentKind := do
  let mimetype ← readLE buf offset 2
  if mimetype = 0xFFFF then pure .redirect else pure .content

/-- `csize` of the selected variant (sum of its `_fields_` widths). -/
def direntCsize : DirentKind → Nat
  | .content => 16
  | .redirect => 12

/-- `Dirent.mimetype` field (offset 0, 2 bytes). -/
def direntMimetype (buf : List Nat) (offset : Nat) : Except PyErr Nat :=
  readLE buf offset 2

/-- `Dirent.namespace` field: a `c_char` at field offset 3, i.e. the
one-byte `bytes` object `buf[offset+3 : offset+4]` (kept as a byte list,
since the callers compare it against a `bytes` value). -/
def direntNamespace (buf : List Nat) (offset : Nat) : Except PyErr (List Nat) := do
  let b ← readLE buf (offset + 3) 1
  pure [b]

/-- `RedirectDirent.redirect_index` field (offset 8, 4 bytes). -/
def direntRedirectIndex (buf : List Nat) (offset : Nat) : Except PyErr Nat :=
  readLE buf (offset + 8) 4

/-- `ContentDirent.clusterNumber` field (offset 8, 4 bytes). -/
def direntClusterNumber (buf : List Nat) (offset : Nat) : Except PyErr Nat :=
  readLE buf (offset + 8) 4

/-- `ContentDirent.blobNumber` field (offset 12, 4 bytes). -/
def direntBlobNumber (buf : List Nat) (offset : Nat) : Except PyErr Nat :=
  readLE buf (offset + 12) 4

/-- `Dirent.url` (src/structs.py, lines 144–148):

```python
off = self.offset + self.csize
end_off = self.buf.find(ZERO, off)
return self.buf[off:end_off].decode()
```

When no NUL terminator exists, `find` returns `-1` and the slice end
`-1` silently drops the final byte instead of raising. -/
def direntUrl (buf : List Nat) (offset : Nat) : Except PyErr (List Nat) := do
  let kind ← direntKind buf offset
  let off := offset + direntCsize kind
  let end_off := findByte buf 0 off
  pure (pySlice buf (off : Int) end_off)

/-- `Dirent.title` (src/structs.py, lines 150–155):

```python
off = self.offset + self.csize
off = self.buf.find(ZERO, off) + 1
end_off = self.buf.find(ZERO, off)
return self.buf[off:end_off].decode()
```

When the url terminator is missing, `find` returns `-1`, so the title
scan restarts from position `0`. -/
def direntTitle (buf : List Nat) (offset : Nat) : Except PyErr (List Nat) := do
  let kind ← direntKind buf offset
  let off0 := offset + direntCsize kind
  let off := (findByte buf 0 off0 + 1).toNat
  let end_off := findByte buf 0 off
  pure (pySlice buf (off : Int) end_off)

/-- `read_cstring` (src/zimpy/structs.py, lines 33–35):

```python
def read_cstring(buf, offset):
    end_off = buf.find(bytes([0]), offset)
    return buf[offset:end_off].decode(), end_off + 1
```

Note `end_off == -1` (terminator missing) silently yields
`buf[offset:-1]` and a next offset of `0`. -/
def read_cstring (buf : List Nat) (offset : Nat) : List Nat × Nat :=
  let end_off := findByte buf 0 offset
  (pySlice buf (offset : Int) end_off, (end_off + 1).toNat)

/-! ## Pointer arrays (src/structs.py, lines 78–104) -/

/-- `UrlPtrList.__getitem__` = `BaseArray.__getitem__` with
`ctype = c_uint64`: one `unpack_from` at `offset + index * 8`,
converting `struct.error` to `IndexError`. -/
def urlPtrGet (mm : List Nat) (pos index : Nat) : Except PyErr Nat :=
  match readLE mm (pos + index * 8) 8 with
  | .ok v => .ok v
  | .error _ => .error .indexError

/-! ## URL lookup (src/zimpy.py, lines 38–46 and 60–62) -/

/-- `ZIMFile._compare_url` (src/zimpy.py, lines 38–46):

```python
d = Dirent(self.header.buf, self.urlPtrList[index])
if d.namespace == ns and d.url == url:
    return 0
if d.namespace < ns or (d.namespace == ns and d.url < url):
    return -1
else:
    return 1
```

Python's `and`/`or` short-circuit, so `d.url` is only read when
`d.namespace == ns`; the `Dirent` constructor itself reads the
mimetype discriminator. -/
def compare_url (mm : List Nat) (urlPtrPos index : Nat) (ns url : List Nat) :
    Except PyErr Int := do
  let doff ← urlPtrGet mm urlPtrPos index
  let _ ← direntKind mm doff
  let dns ← direntNamespace mm doff
  if dns = ns then do
    let durl ← direntUrl mm doff
    if durl = url then pure 0
    else if bytesLt durl url then pure (-1)
    else pure 1
  else if bytesLt dns ns then pure (-1)
  else pure 1

/-- `ZIMFile.findByUrl` (src/zimpy.py, lines 60–62):
`bisect(lambda index: self._compare_url(index, ns, url), 0, self.header.entryCount)`,
where `urlPtrPos` and `entryCount` are the header fields read at open time. -/
def findByUrl (mm : List Nat) (urlPtrPos entryCount : Nat) (ns url : List Nat)
    (fuel : Nat) : Option (Except PyErr Nat) :=
  bisect (fun index => compare_url mm urlPtrPos index ns url) 0 entryCount fuel

/-! ## Redirect resolution (src/zimpy.py, lines 162–164; src/zimpy/server.py, lines 36–37)

```python
while dirent.kind == "redirect":
    index = dirent.redirect_index
    dirent = Dirent(self.zim.header.buf, self.zim.urlPtrList[index])
```

(The `zimpy/server.py` loop is the same, written in one line.)  The loop
has no hop bound of any kind.  Fuel counts loop iterations; `none` means
the loop is still running after `fuel` iterations.  A successful result
is the byte offset of the final (content) dirent. -/
def resolveRedirects (mm : List Nat) (urlPtrPos : Nat) :
    Nat → Nat → Option (Except PyErr Nat)
  | offset, 0 =>
    match direntKind mm offset with
    | .error e => some (.error e)
    | .ok .content => some (.ok offset)
    | .ok .redirect => none
  | offset, fuel + 1 =>
    match direntKind mm offset with
    | .error e => some (.error e)
    | .ok .content => some (.ok offset)
    | .ok .redirect =>
      match direntRedirectIndex mm offset with
      | .error e => some (.error e)
      | .ok index =>
        match urlPtrGet mm urlPtrPos index with
        | .error e => some (.error e)
        | .ok off2 => resolveRedirects mm urlPtrPos off2 fuel

/-! ## Concrete archives for the lookup and redirect claims -/

/-- An archive with one entry: an 80-byte header with `entryCount = 1`
(offset 24) and `urlPtrPos = 80` (offset 32); at 80 the single URL
pointer (value 88); at 88 a content dirent with namespace `A` (65),
url `"b"` (98), empty title. -/
def c1mm : List Nat :=
  List.replicate 24 0 ++ [1, 0, 0, 0] ++ [0, 0, 0, 0] ++
  [80, 0, 0, 0, 0, 0, 0, 0] ++ List.replicate 40 0 ++
  [88, 0, 0, 0, 0, 0, 0, 0] ++
  [0, 0, 0, 65] ++ List.replicate 12 0 ++ [98, 0, 0]

/-- An archive fragment whose URL-pointer array starts at 0 with a single
pointer (value 8) to a redirect dirent whose `redirect_index` is 0 —
a redirect cycle of length 1. -/
def c3mm : List Nat :=
  [8, 0, 0, 0, 0, 0, 0, 0] ++
  [255, 255, 0, 65] ++ List.replicate 8 0

/-- src/zimpy.py `bisect`, evaluated at the failing configuration: when
every probe reports the target lies to the right (`comp < 0`), the
assignment `low = middle` (instead of `low = middle + 1`) repeats the
state `(0, 1)` forever, so the loop never reaches the empty range and
never raises `IndexError`.  The equality and empty-range behaviours the
claim also describes do hold: an empty range raises `IndexError`
immediately, and `comp == 0` returns `middle` at once. -/
theorem bisect_low_update_diverges :
    (∀ fuel, bisect (fun _ => .ok (-1)) 0 1 fuel = none) ∧
    bisect (fun _ => .ok (-1)) 0 0 1 = some (.error .indexError) ∧
    bisect (fun _ => .ok 0) 0 2 1 = some (.ok 1) := by
  refine ⟨bisect_stuck _ 0 (-1) rfl (by decide), rfl, rfl⟩

/-- src/zimpy.py `findByUrl`, evaluated on the concrete archive `c1mm`
holding the single entry (namespace `A`, url `"b"`): the query
(`A`, `"c"`) is absent, and instead of raising `IndexError` the binary
search loops forever (`none` for every fuel), because `bisect` sets
`low = middle` when the comparator returns `-1`. -/
theorem findByUrl_absent_diverges :
    headerEntryCount c1mm = .ok 1 ∧
    headerUrlPtrPos c1mm = .ok 80 ∧
    direntNamespace c1mm 88 = .ok [65] ∧
    direntUrl c1mm 88 = .ok [98] ∧
    (∀ fuel, findByUrl c1mm 80 1 [65] [99] fuel = none) := by
  refine ⟨rfl, rfl, rfl, rfl, ?_⟩
  exact bisect_stuck (fun index => compare_url c1mm 80 index [65] [99]) 0 (-1)
    rfl (by decide)

/-- The redirect-resolution loop of src/zimpy.py (lines 162–164) and
src/zimpy/server.py (lines 36–37), evaluated on the concrete archive
`c3mm` whose entry 0 is a redirect dirent pointing back to itself: the
loop re-decodes the same dirent forever (`none` for every fuel) — there
is no hop bound and no `RedirectLoop` failure. -/
theorem resolveRedirects_cycle_diverges :
    direntKind c3mm 8 = .ok .redirect ∧
    direntRedirectIndex c3mm 8 = .ok 0 ∧
    urlPtrGet c3mm 0 0 = .ok 8 ∧
    (∀ fuel, resolveRedirects c3mm 0 8 fuel = none) := by
  refine ⟨rfl, rfl, rfl, ?_⟩
  intro fuel
  induction fuel with
  | zero => rfl
  | succ n ih =>
    have h : resolveRedirects c3mm 0 8 (n + 1) = resolveRedirects c3mm 0 8 n := rfl
    rw [h]
    exact ih

/-! ## Idempotence of redirect resolution -/

/-- A successful resolution always stops at a content dirent: the loop
`while dirent.kind == "redirect"` can only exit when the kind test reads
a non-redirect discriminator. -/
theorem resolveRedirects_ok_kind (mm : List Nat) (p : Nat) :
    ∀ fuel off r, resolveRedirects mm p off fuel = some (.ok r) →
      direntKind mm r = .ok .content := by
  intro fuel
  induction fuel with
  | zero =>
    intro off r h
    simp only [resolveRedirects] at h
    cases hk : direntKind mm off with
    | error e => rw [hk] at h; simp at h
    | ok k =>
      cases k with
      | content =>
        rw [hk] at h
        simp only [Option.some.injEq, Except.ok.injEq] at h
        rw [← h]; exact hk
      | redirect => rw [hk] at h; simp at h
  | succ n ih =>
    intro off r h
    simp only [resolveRedirects] at h
    cases hk : direntKind mm off with
    | error e => rw [hk] at h; simp at h
    | ok k =>
      cases k with
      | content =>
        rw [hk] at h
        simp only [Option.some.injEq, Except.ok.injEq] at h
        rw [← h]; exact hk
      | redirect =>
        rw [hk] at h
        cases hi : direntRedirectIndex mm off with
        | error e => rw [hi] at h; simp at h
        | ok index =>
          rw [hi] at h
          dsimp only at h
          cases hu : urlPtrGet mm p index with
          | error e => rw [hu] at h; simp at h
          | ok off2 =>
            rw [hu] at h
            exact ih off2 r h

/-- C8: redirect resolution is idempotent.  If the redirect loop starting
from dirent offset `off` terminates at dirent offset `r` (a content
dirent), then resolving again from `r` immediately returns `r` — with
any fuel at all, since the loop body never runs on a content dirent.
In particular `resolve(resolve(d)) = resolve(d)`. -/
theorem resolveRedirects_idempotent (mm : List Nat) (p off fuel : Nat) (r : Nat)
    (h : resolveRedirects mm p off fuel = some (.ok r)) :
    ∀ fuel2, resolveRedirects mm p r fuel2 = some (.ok r) := by
  have hk : direntKind mm r = .ok .content := resolveRedirects_ok_kind mm p fuel off r h
  intro fuel2
  cases fuel2 with
  | zero => simp [resolveRedirects, hk]
  | succ n => simp [resolveRedirects, hk]

/-- An archive fragment with a URL-pointer array at 0 (entries 16 and 28),
a redirect dirent at 16 whose target index is 1, and a content dirent
at 28: a redirect chain of length 1 ending in content. -/
def c8mm : List Nat :=
  [16, 0, 0, 0, 0, 0, 0, 0] ++ [28, 0, 0, 0, 0, 0, 0, 0] ++
  [255, 255, 0, 65] ++ List.replicate 4 0 ++ [1, 0, 0, 0] ++
  [0, 0, 0, 66] ++ List.replicate 12 0

/-- Witness for `resolveRedirects_idempotent`: on `c8mm`, resolving the
redirect dirent at 16 yields the content dirent at 28, and resolving
again from 28 returns 28 unchanged. -/
theorem resolveRedirects_idempotent_witness :
    resolveRedirects c8mm 0 16 1 = some (.ok 28) ∧
    resolveRedirects c8mm 0 28 1 = some (.ok 28) :=
  ⟨rfl, resolveRedirects_idempotent c8mm 0 16 1 28 rfl 1⟩

/-! ## Cluster (src/structs.py, lines 183–258; src/zimpy/structs.py, lines 160–212)

The first byte of a cluster is the info byte: low 4 bits are the
compression method, bit 4 the "extended" flag (64-bit instead of 32-bit
offset entries).  `Cluster.data` decompresses with the external `lzma`
library when the method is 4 and with the external `zstandard` library
when it is 5 — those decompression streams are modelled as oracle
parameters `dec4`/`dec5` (a function of the buffer and the start of the
compressed body), which every theorem below quantifies over.  For every
other method value the source's `else` branch returns the raw view
`(self.buf, self.offset + 1)` — there is no unsupported-method check. -/

/-- `Cluster.data` (src/structs.py, lines 204–230). -/
def clusterData (dec4 dec5 : List Nat → Nat → List Nat) (buf : List Nat)
    (offset : Nat) : Except PyErr (List Nat × Nat) := do
  let info ← readLE buf offset 1
  if info % 16 = 4 then pure (dec4 buf (offset + 1), 0)
  else if info % 16 = 5 then pure (dec5 buf (offset + 1), 0)
  else pure (buf, offset + 1)

/-- The offset-table entry width selected by the extended flag
(bit 4 of the info byte): `c_uint64` when set, `c_uint32` otherwise. -/
def entryWidth (info : Nat) : Nat :=
  if info / 16 % 2 = 1 then 8 else 4

/-- `Cluster.offsetArray[index]` (src/structs.py, lines 232–237 with
lines 86–94): the offset-table entry width follows the extended bit of
the info byte, and `BaseArray.__getitem__` converts `struct.error` into
`IndexError`. -/
def clusterOffsetArrayGet (dec4 dec5 : List Nat → Nat → List Nat)
    (buf : List Nat) (offset index : Nat) : Except PyErr Nat := do
  let info ← readLE buf offset 1
  let (data, base) ← clusterData dec4 dec5 buf offset
  match readLE data (base + index * entryWidth info) (entryWidth info) with
  | .ok v => pure v
  | .error _ => Except.error .indexError

/-- `Cluster.nb_offsets` (src/structs.py, lines 243–246):
`offsetArray[0] // entry width`. -/
def nb_offsets (dec4 dec5 : List Nat → Nat → List Nat) (buf : List Nat)
    (offset : Nat) : Except PyErr Nat := do
  let first ← clusterOffsetArrayGet dec4 dec5 buf offset 0
  let info ← readLE buf offset 1
  pure (first / entryWidth info)

/-- `Cluster.get_blob_offset` (src/structs.py, lines 249–252). -/
def get_blob_offset (dec4 dec5 : List Nat → Nat → List Nat) (buf : List Nat)
    (offset index : Nat) : Except PyErr Nat := do
  let n ← nb_offsets dec4 dec5 buf offset
  if index ≥ n then Except.error .indexError
  else clusterOffsetArrayGet dec4 dec5 buf offset index

/-- `Cluster.get_blob_data` (src/structs.py, lines 254–258). -/
def get_blob_data (dec4 dec5 : List Nat → Nat → List Nat) (buf : List Nat)
    (offset index : Nat) : Except PyErr (List Nat) := do
  let blob_offset ← get_blob_offset dec4 dec5 buf offset index
  let end_offset ← get_blob_offset dec4 dec5 buf offset (index + 1)
  let (data, base) ← clusterData dec4 dec5 buf offset
  pure (pySlice data ((base + blob_offset : Nat) : Int) ((base + end_offset : Nat) : Int))

/-- `Cluster.data` of the package version (src/zimpy/structs.py,
lines 173–201): same selection logic as src/structs.py. -/
def zp_clusterData (dec4 dec5 : List Nat → Nat → List Nat) (buf : List Nat)
    (offset : Nat) : Except PyErr (List Nat × Nat) := do
  let info ← readLE buf offset 1
  if info % 16 = 4 then pure (dec4 buf (offset + 1), 0)
  else if info % 16 = 5 then pure (dec5 buf (offset + 1), 0)
  else pure (buf, offset + 1)

/-- `Cluster.offsets[index]` of the package version (src/zimpy/structs.py,
lines 203–208 with lines 85–94): `BaseList.__getitem__` is a bare
`unpack_from` — `struct.error` propagates, nothing is caught, and there
is no bound against the table length. -/
def zp_offsetsGet (dec4 dec5 : List Nat → Nat → List Nat) (buf : List Nat)
    (offset index : Nat) : Except PyErr Nat := do
  let info ← readLE buf offset 1
  let (data, base) ← zp_clusterData dec4 dec5 buf offset
  readLE data (base + index * entryWidth info) (entryWidth info)

/-- `Cluster.get_blob_data` of the package version (src/zimpy/structs.py,
lines 210–212):

```python
def get_blob_data(self, index):
    data, offset = self.data
    return data[offset + self.offsets[index] : offset + self.offsets[index + 1]]
```

No bounds check of any kind. -/
def zp_get_blob_data (dec4 dec5 : List Nat → Nat → List Nat) (buf : List Nat)
    (offset index : Nat) : Except PyErr (List Nat) := do
  let (data, base) ← zp_clusterData dec4 dec5 buf offset
  let o1 ← zp_offsetsGet dec4 dec5 buf offset index
  let o2 ← zp_offsetsGet dec4 dec5 buf offset (index + 1)
  pure (pySlice data ((base + o1 : Nat) : Int) ((base + o2 : Nat) : Int))

/-- A decompression oracle that is never consulted in the claims below
(the clusters involved are uncompressed). -/
def noDecomp : List Nat → Nat → List Nat := fun _ _ => []

/-- Reduction of `Except` bind on a success value. -/
theorem bindOk {ε α β : Type} (a : α) (f : α → Except ε β) :
    (Except.ok a >>= f) = f a := rfl

/-- Reduction of `Except` bind on an error value. -/
theorem bindErr {ε α β : Type} (e : ε) (f : α → Except ε β) :
    ((Except.error e : Except ε α) >>= f) = Except.error e := rfl

/-- C4 counterexample: a cluster whose info byte is 2 (a method code that
is neither "no compression" as used by real archives nor LZMA2 nor
Zstandard — e.g. the zlib code of the ZIM format) does *not* fail:
both `Cluster.data` implementations return the raw byte view
`(buf, offset + 1)` through their `else` branch. -/
theorem clusterData_code2_returns_raw :
    clusterData noDecomp noDecomp [2, 65] 0 = .ok ([2, 65], 1) ∧
    zp_clusterData noDecomp noDecomp [2, 65] 0 = .ok ([2, 65], 1) :=
  ⟨rfl, rfl⟩

/-- C4 amended: for every cluster whose compression method code (low 4
bits of the info byte) is anything other than 4 (LZMA2/XZ) and
5 (Zstandard) — including 0, 1, and all undefined codes — requesting
the cluster's payload succeeds with the raw view `(buf, offset + 1)`;
no unsupported-compression failure exists in either implementation. -/
theorem clusterData_other_codes_raw (dec4 dec5 : List Nat → Nat → List Nat)
    (buf : List Nat) (offset info : Nat)
    (hinfo : readLE buf offset 1 = .ok info)
    (h4 : info % 16 ≠ 4) (h5 : info % 16 ≠ 5) :
    clusterData dec4 dec5 buf offset = .ok (buf, offset + 1) ∧
    zp_clusterData dec4 dec5 buf offset = .ok (buf, offset + 1) := by
  constructor <;>
    simp [clusterData, zp_clusterData, hinfo, bindOk, h4, h5, pure, Except.pure]

/-- Witness for `clusterData_other_codes_raw` at the concrete cluster
`[3, 0]` (method code 3). -/
theorem clusterData_other_codes_raw_witness :
    clusterData noDecomp noDecomp [3, 0] 0 = .ok ([3, 0], 1) ∧
    zp_clusterData noDecomp noDecomp [3, 0] 0 = .ok ([3, 0], 1) :=
  clusterData_other_codes_raw noDecomp noDecomp [3, 0] 0 3 rfl
    (by decide) (by decide)

/-- Once the info byte has been read, `Cluster.data` always succeeds
(each branch of the method dispatch returns a value). -/
theorem clusterData_exists (dec4 dec5 : List Nat → Nat → List Nat)
    (buf : List Nat) (offset info : Nat)
    (hinfo : readLE buf offset 1 = .ok info) :
    ∃ d b, clusterData dec4 dec5 buf offset = .ok (d, b) := by
  unfold clusterData
  rw [hinfo, bindOk]
  split_ifs <;> exact ⟨_, _, rfl⟩

/-- If `nb_offsets` succeeds then the info byte was readable. -/
theorem nb_offsets_info (dec4 dec5 : List Nat → Nat → List Nat)
    (buf : List Nat) (offset n : Nat)
    (hn : nb_offsets dec4 dec5 buf offset = .ok n) :
    ∃ info, readLE buf offset 1 = .ok info := by
  cases hr : readLE buf offset 1 with
  | ok info => exact ⟨info, rfl⟩
  | error e =>
    exfalso
    unfold nb_offsets clusterOffsetArrayGet at hn
    rw [hr] at hn
    simp [bindErr] at hn

/-- Given readable info byte and payload, an offset-table access either
succeeds or fails with `IndexError` (never any other error): the only
remaining failure is the caught `struct.error` of the entry read. -/
theorem clusterOffsetArrayGet_shape (dec4 dec5 : List Nat → Nat → List Nat)
    (buf : List Nat) (offset index info : Nat) (d : List Nat) (b : Nat)
    (hinfo : readLE buf offset 1 = .ok info)
    (hdata : clusterData dec4 dec5 buf offset = .ok (d, b)) :
    (∃ v, clusterOffsetArrayGet dec4 dec5 buf offset index = .ok v) ∨
    clusterOffsetArrayGet dec4 dec5 buf offset index = .error .indexError := by
  unfold clusterOffsetArrayGet
  rw [hinfo, bindOk, hdata, bindOk]
  cases hx : readLE d (b + index * entryWidth info) (entryWidth info) with
  | ok v => exact Or.inl ⟨v, by dsimp only; rw [hx]; rfl⟩
  | error e => exact Or.inr (by dsimp only; rw [hx])

/-- `get_blob_offset` below the offset count defers to the table read. -/
theorem get_blob_offset_lt (dec4 dec5 : List Nat → Nat → List Nat)
    (buf : List Nat) (offset index n : Nat)
    (hn : nb_offsets dec4 dec5 buf offset = .ok n) (h : index < n) :
    get_blob_offset dec4 dec5 buf offset index =
      clusterOffsetArrayGet dec4 dec5 buf offset index := by
  unfold get_blob_offset
  rw [hn, bindOk, if_neg (by omega)]

/-- `get_blob_offset` at or above the offset count raises `IndexError`. -/
theorem get_blob_offset_ge (dec4 dec5 : List Nat → Nat → List Nat)
    (buf : List Nat) (offset index n : Nat)
    (hn : nb_offsets dec4 dec5 buf offset = .ok n) (h : n ≤ index) :
    get_blob_offset dec4 dec5 buf offset index = .error .indexError := by
  unfold get_blob_offset
  rw [hn, bindOk, if_pos (by omega)]

/-- C5 for the src/structs.py `Cluster` (the bounds-checked
implementation): with `n` offsets the blob count is `N = n - 1`; every
fetch at `index ≥ N` (equivalently `index + 1 ≥ n`) fails with
`IndexError`, and every in-range fetch returns exactly the payload slice
`[offset[index], offset[index+1])` relative to the payload base. -/
theorem get_blob_data_bounds (dec4 dec5 : List Nat → Nat → List Nat)
    (buf : List Nat) (offset index n : Nat)
    (hn : nb_offsets dec4 dec5 buf offset = .ok n) :
    (index + 1 ≥ n → get_blob_data dec4 dec5 buf offset index = .error .indexError) ∧
    (∀ oi oi1 d b, index + 1 < n →
      clusterOffsetArrayGet dec4 dec5 buf offset index = .ok oi →
      clusterOffsetArrayGet dec4 dec5 buf offset (index + 1) = .ok oi1 →
      clusterData dec4 dec5 buf offset = .ok (d, b) →
      get_blob_data dec4 dec5 buf offset index =
        .ok (pySlice d ((b + oi : Nat) : Int) ((b + oi1 : Nat) : Int))) := by
  constructor
  · intro hge
    rcases Nat.lt_or_ge index n with hlt | hge2
    · obtain ⟨info, hinfo⟩ := nb_offsets_info dec4 dec5 buf offset n hn
      obtain ⟨d, b, hdata⟩ := clusterData_exists dec4 dec5 buf offset info hinfo
      rcases clusterOffsetArrayGet_shape dec4 dec5 buf offset index info d b
          hinfo hdata with ⟨v, hv⟩ | herr
      · unfold get_blob_data
        rw [get_blob_offset_lt dec4 dec5 buf offset index n hn hlt, hv, bindOk,
          get_blob_offset_ge dec4 dec5 buf offset (index + 1) n hn hge, bindErr]
      · unfold get_blob_data
        rw [get_blob_offset_lt dec4 dec5 buf offset index n hn hlt, herr, bindErr]
    · unfold get_blob_data
      rw [get_blob_offset_ge dec4 dec5 buf offset index n hn hge2, bindErr]
  · intro oi oi1 d b hlt hoi hoi1 hdata
    unfold get_blob_data
    rw [get_blob_offset_lt dec4 dec5 buf offset index n hn (by omega), hoi, bindOk,
      get_blob_offset_lt dec4 dec5 buf offset (index + 1) n hn hlt, hoi1, bindOk,
      hdata, bindOk]
    rfl

/-- An uncompressed, non-extended cluster with one blob: info byte 0, a
two-entry 32-bit offset table `[8, 12]`, and the four payload bytes
`[87, 88, 89, 90]` occupying `[8, 12)` of the payload. -/
def c5buf : List Nat :=
  [0, 8, 0, 0, 0, 12, 0, 0, 0, 87, 88, 89, 90]

/-- Witness for `get_blob_data_bounds` on `c5buf` (N = 1 blob):
`get_blob_data 1` fails with `IndexError` and `get_blob_data 0` returns
exactly the constructed blob bytes. -/
theorem get_blob_data_bounds_witness :
    get_blob_data noDecomp noDecomp c5buf 0 1 = .error .indexError ∧
    get_blob_data noDecomp noDecomp c5buf 0 0 = .ok [87, 88, 89, 90] := by
  constructor
  · exact (get_blob_data_bounds noDecomp noDecomp c5buf 0 1 2 rfl).1 (by omega)
  · have h := (get_blob_data_bounds noDecomp noDecomp c5buf 0 0 2 rfl).2
      8 12 c5buf 1 (by omega) rfl rfl rfl
    rw [h]
    rfl

/-- C5 counterexample (src/zimpy/structs.py `Cluster.get_blob_data`):
on the same one-blob cluster `c5buf` (offset table entry 0 reads 8, so
the blob count is 8 / 4 - 1 = 1), fetching blob index 1 does not fail —
there is no bounds check, the entry read at table position 2 lands on
the payload bytes themselves, and the fetch silently returns the byte
slice `[]`. -/
theorem zp_get_blob_data_out_of_range_returns_bytes :
    readLE c5buf 1 4 = .ok 8 ∧
    zp_get_blob_data noDecomp noDecomp c5buf 0 1 = .ok [] :=
  ⟨rfl, rfl⟩

/-! ## Missing NUL terminators (claim about `url`/`title` decoding) -/

/-- A Python slice `buf[off:-1]` is the suffix from `off` with its last
element removed. -/
theorem pySlice_to_neg_one (buf : List Nat) (off : Nat) :
    pySlice buf (off : Int) (-1) = (buf.drop off).dropLast := by
  unfold pySlice pyIdx
  have h0 : ¬ ((off : Int) < 0) := by omega
  have h1 : ((-1 : Int) + (buf.length : Int)).toNat = buf.length - 1 := by omega
  have h2 : ((off : Int)).toNat = off := Int.toNat_natCast off
  rw [if_pos (by omega : (-1 : Int) < 0), if_neg h0, h1, h2]
  rcases le_or_lt off buf.length with hle | hlt
  · rw [min_eq_left hle, List.drop_take, List.dropLast_eq_take, List.length_drop]
    congr 1
    omega
  · rw [min_eq_right (le_of_lt hlt)]
    rw [List.drop_eq_nil_of_le (by simp only [List.length_take]; omega),
      List.drop_eq_nil_of_le (le_of_lt hlt)]
    rfl

/-- C6 amended: when a NUL terminator is missing, `bytes.find` returns
`-1` and the reads silently succeed with a byte slice that simply drops
the final byte of the source: `Dirent.url` (src/structs.py) returns
`buf[off:-1]` and `read_cstring` (src/zimpy/structs.py) returns
`(buf[offset:-1], 0)` — no `Truncated`-style failure exists. -/
theorem missing_terminator_silent (buf : List Nat) (offset : Nat) :
    (direntKind buf offset = .ok .content → findByte buf 0 (offset + 16) = -1 →
      direntUrl buf offset = .ok ((buf.drop (offset + 16)).dropLast)) ∧
    (findByte buf 0 offset = -1 →
      read_cstring buf offset = ((buf.drop offset).dropLast, 0)) := by
  constructor
  · intro hkind hfind
    unfold direntUrl
    rw [hkind, bindOk]
    show Except.ok (pySlice buf _ (findByte buf 0 (offset + direntCsize .content))) = _
    rw [show direntCsize .content = 16 from rfl, hfind, pySlice_to_neg_one]
  · intro hfind
    unfold read_cstring
    rw [hfind]
    show (pySlice buf (offset : Int) (-1), ((-1 : Int) + 1).toNat) = _
    rw [pySlice_to_neg_one]
    rfl

/-- A byte source holding one content dirent (16 fixed bytes) followed by
the bytes `"ab"` with no NUL terminator anywhere after the fixed part. -/
def c6buf : List Nat := List.replicate 16 0 ++ [97, 98]

/-- C6 counterexample: on `c6buf` the url field has no NUL terminator
before the end of the source, yet `Dirent.url` does not fail — it
silently returns the byte `"a"` (the slice `buf[16:-1]`). -/
theorem direntUrl_truncated_no_error :
    findByte c6buf 0 16 = -1 ∧ direntUrl c6buf 0 = .ok [97] :=
  ⟨rfl, rfl⟩

/-- Witness for `missing_terminator_silent` at `c6buf`. -/
theorem missing_terminator_silent_witness :
    direntUrl c6buf 0 = .ok ((c6buf.drop 16).dropLast) ∧
    read_cstring c6buf 16 = ((c6buf.drop 16).dropLast, 0) :=
  ⟨(missing_terminator_silent c6buf 0).1 rfl rfl,
   (missing_terminator_silent c6buf 16).2 rfl⟩

/-! ## Opening an archive never checks the magic number -/

/-- C7 amended: opening an archive succeeds for every source at least 80
bytes long, whatever its magic number is: `Header` decoding performs no
validation at all, and `ZIMFile.__init__` only reads position/count
fields.  (The published ZIM magic constant is 72173914 = 0x44D495A;
neither it nor any other expected value appears anywhere in the code.) -/
theorem zimOpen_no_magic_check (mm : List Nat) (m : Nat)
    (hlen : 80 ≤ mm.length) (hmagic : headerMagicNumber mm = .ok m) :
    ∃ h, zimOpen mm = .ok h ∧ ZimHandle.mm h = mm := by
  have r : ∀ o w, o + w ≤ 80 → readLE mm o w = .ok (leValue ((mm.drop o).take w)) := by
    intro o w hw
    unfold readLE
    rw [if_pos (by omega)]
  refine ⟨⟨mm, leValue ((mm.drop 56).take 8), leValue ((mm.drop 32).take 8),
    leValue ((mm.drop 40).take 8), leValue ((mm.drop 48).take 8),
    leValue ((mm.drop 4).take 2), leValue ((mm.drop 6).take 2),
    leValue ((mm.drop 24).take 4), leValue ((mm.drop 28).take 4)⟩, ?_, rfl⟩
  unfold zimOpen headerMimeListPos headerUrlPtrPos headerTitlePtrPos
    headerClusterPtrPos headerMajorVersion headerMinorVersion
    headerEntryCount headerClusterCount
  rw [r 56 8 (by omega), bindOk, r 32 8 (by omega), bindOk,
    r 40 8 (by omega), bindOk, r 48 8 (by omega), bindOk,
    r 4 2 (by omega), bindOk, r 6 2 (by omega), bindOk,
    r 24 4 (by omega), bindOk, r 28 4 (by omega), bindOk]
  rfl

/-- An 80-byte all-zero buffer: its magic-number field is 0, which is not
the ZIM magic. -/
def c7mm : List Nat := List.replicate 80 0

/-- C7 counterexample: opening `c7mm` — whose magic field is 0, not the
ZIM magic 72173914 — succeeds and yields a usable handle; no
`InvalidMagic` failure exists anywhere in the code. -/
theorem zimOpen_accepts_wrong_magic :
    headerMagicNumber c7mm = .ok 0 ∧ (0 : Nat) ≠ 72173914 ∧
    zimOpen c7mm = .ok ⟨c7mm, 0, 0, 0, 0, 0, 0, 0, 0⟩ :=
  ⟨rfl, by decide, rfl⟩

/-- Witness for `zimOpen_no_magic_check` at the concrete buffer `c7mm`. -/
theorem zimOpen_no_magic_check_witness :
    ∃ h, zimOpen c7mm = .ok h ∧ ZimHandle.mm h = c7mm :=
  zimOpen_no_magic_check c7mm 0 (by decide) rfl

/-! ## Mimetype list (src/structs.py, lines 52–75; src/zimpy/structs.py, lines 69–76)

`MimeTypeList.__getitem__` re-scans from the list offset on every
access:

```python
off = self.offset
for i in range(index):
    end_off = self.buf.find(ZERO, off)
    if end_off == off:
        raise IndexError
    off = end_off + 1
end_off = self.buf.find(ZERO, off)
if end_off == off:
    raise IndexError
return self.buf[off:end_off].decode(ENCODING)
```

`range(index)` of a negative index is empty, so the skip count is
`max(index, 0)`; a `find` miss returns `-1`, making the next scan
position `0`. -/

/-- The skip loop of `MimeTypeList.__getitem__`: advance `count` entries
from `off`, raising `IndexError` on an empty entry. -/
def mimeSkip (buf : List Nat) : Nat → Nat → Except PyErr Nat
  | off, 0 => .ok off
  | off, count + 1 =>
    let end_off := findByte buf 0 off
    if end_off = (off : Int) then .error .indexError
    else mimeSkip buf (end_off + 1).toNat count

/-- `MimeTypeList.__getitem__` (src/structs.py, lines 57–68). -/
def mimeGetItem (buf : List Nat) (offset : Nat) (index : Int) :
    Except PyErr (List Nat) :=
  match mimeSkip buf offset index.toNat with
  | .error e => .error e
  | .ok off =>
    let end_off := findByte buf 0 off
    if end_off = (off : Int) then .error .indexError
    else .ok (pySlice buf (off : Int) end_off)

/-- Index of the first occurrence of two consecutive NUL bytes. -/
def findPairFrom : List Nat → Option Nat
  | [] => none
  | [_] => none
  | x :: y :: xs =>
    if x = 0 ∧ y = 0 then some 0
    else (findPairFrom (y :: xs)).map (· + 1)

/-- Python `buf.find(bytes([0, 0]), start)`. -/
def findPair (buf : List Nat) (start : Nat) : Int :=
  match findPairFrom (buf.drop start) with
  | some k => ((start + k : Nat) : Int)
  | none => -1

/-- Python `buf.count(bytes([b]), start, stop)`: occurrences of byte `b`
at positions in `[start, stop)`. -/
def countByte (buf : List Nat) (b : Nat) (start stop : Nat) : Nat :=
  ((buf.take stop).drop start).count b

/-- `MimeTypeList.__len__` (src/structs.py, lines 70–72):

```python
end_buf = self.buf.find(bytes([0, 0]), self.offset)
return self.buf.count(ZERO, self.offset, end_buf + 1)
```
-/
def mimeLen (buf : List Nat) (offset : Nat) : Nat :=
  countByte buf 0 offset (findPair buf offset + 1).toNat

/-- `MimetypeList.__init__` (src/zimpy/structs.py, lines 69–76): the
eager scan `while True: mimetype, offset = read_cstring(...); if not
mimetype: break; self.append(mimetype)`, with fuel bounding the number
of loop iterations (`none` = still running). -/
def MimetypeListDecode (buf : List Nat) : Nat → Nat → Option (List (List Nat))
  | _, 0 => none
  | offset, fuel + 1 =>
    let r := read_cstring buf offset
    if r.1 = [] then some []
    else (MimetypeListDecode buf r.2 fuel).map (r.1 :: ·)

/-- The on-disk encoding of a mimetype list: each entry NUL-terminated,
the whole list terminated by an empty entry (a lone NUL). -/
def mimeEncode (entries : List (List Nat)) : List Nat :=
  entries.foldr (fun e acc => e ++ 0 :: acc) [0]

/-- Scanning for a NUL over a NUL-free prefix `e` finds the terminator
right after `e`. -/
theorem findFrom_append (e tail : List Nat) (he : ¬ 0 ∈ e) :
    findFrom (e ++ 0 :: tail) 0 = some e.length := by
  induction e with
  | nil => simp [findFrom]
  | cons x e' ih =>
    have hx : x ≠ 0 := fun h => he (by simp [h])
    have he' : ¬ 0 ∈ e' := fun h => he (List.mem_cons_of_mem _ h)
    simp [findFrom, hx, ih he']

/-- `find` from the start of an encoded entry lands on its terminator. -/
theorem findByte_encode (pre e tail : List Nat) (he : ¬ 0 ∈ e) :
    findByte (pre ++ (e ++ 0 :: tail)) 0 pre.length
      = ((pre.length + e.length : Nat) : Int) := by
  unfold findByte
  rw [List.drop_left, findFrom_append e tail he]

/-- The skip loop splits: skipping `a + b` entries is skipping `a`, then
(on success) skipping `b` from the reached position. -/
theorem mimeSkip_add (buf : List Nat) (b : Nat) : ∀ (a off : Nat),
    mimeSkip buf off (a + b) =
      match mimeSkip buf off a with
      | .error e => .error e
      | .ok off2 => mimeSkip buf off2 b := by
  intro a
  induction a with
  | zero => intro off; rw [Nat.zero_add]; rfl
  | succ a' ih =>
    intro off
    have h1 : a' + 1 + b = (a' + b) + 1 := by omega
    rw [h1]
    by_cases hc : findByte buf 0 off = (off : Int)
    · simp only [mimeSkip, if_pos hc]
    · simp only [mimeSkip, if_neg hc]
      exact ih _

/-- Skipping exactly `entries.length` entries of a well-formed encoded
mimetype list lands on the terminating empty entry, where `find`
returns the current position itself. -/
theorem mimeSkip_encode : ∀ (entries : List (List Nat)) (pre rest : List Nat),
    (∀ e ∈ entries, e ≠ [] ∧ ¬ 0 ∈ e) →
    mimeSkip (pre ++ mimeEncode entries ++ rest) pre.length entries.length
      = .ok (pre.length + (mimeEncode entries).length - 1) ∧
    findByte (pre ++ mimeEncode entries ++ rest) 0
        (pre.length + (mimeEncode entries).length - 1)
      = ((pre.length + (mimeEncode entries).length - 1 : Nat) : Int) := by
  intro entries
  induction entries with
  | nil =>
    intro pre rest _
    have henc : mimeEncode ([] : List (List Nat)) = [0] := rfl
    have hT : pre.length + (mimeEncode ([] : List (List Nat))).length - 1
        = pre.length := by
      rw [henc]; simp
    constructor
    · rw [hT]; rfl
    · rw [hT, henc]
      have hbuf : pre ++ [0] ++ rest = pre ++ (0 :: rest) := by simp
      rw [hbuf]
      unfold findByte
      rw [List.drop_left]
      simp [findFrom]
  | cons e es ih =>
    intro pre rest hwf
    obtain ⟨hene, he0⟩ := hwf e (List.mem_cons_self e es)
    have hwf' : ∀ x ∈ es, x ≠ [] ∧ ¬ 0 ∈ x :=
      fun x hx => hwf x (List.mem_cons_of_mem _ hx)
    have henc : mimeEncode (e :: es) = e ++ 0 :: mimeEncode es := rfl
    have hbuf : pre ++ mimeEncode (e :: es) ++ rest
        = pre ++ (e ++ 0 :: (mimeEncode es ++ rest)) := by
      rw [henc]; simp
    have hlen : (mimeEncode (e :: es)).length
        = e.length + 1 + (mimeEncode es).length := by
      rw [henc]; simp; omega
    have helen : e.length ≠ 0 := by
      simpa [List.length_eq_zero] using hene
    have hcond : ¬ (((pre.length + e.length : Nat) : Int) = (pre.length : Int)) := by
      intro hc
      have h2 : pre.length + e.length = pre.length := by exact_mod_cast hc
      omega
    have hplen : (pre ++ e ++ [0]).length = pre.length + e.length + 1 := by
      simp
      omega
    have hbuf2 : pre ++ (e ++ 0 :: (mimeEncode es ++ rest))
        = (pre ++ e ++ [0]) ++ mimeEncode es ++ rest := by simp
    have ht : ((((pre.length + e.length : Nat) : Int) + 1)).toNat
        = (pre ++ e ++ [0]).length := by
      rw [hplen]; omega
    have hTeq : pre.length + (mimeEncode (e :: es)).length - 1
        = (pre ++ e ++ [0]).length + (mimeEncode es).length - 1 := by
      rw [hplen, hlen]; omega
    obtain ⟨ihs, ihf⟩ := ih (pre ++ e ++ [0]) rest hwf'
    constructor
    · rw [hbuf]
      show mimeSkip _ pre.length (es.length + 1) = _
      simp only [mimeSkip]
      rw [findByte_encode pre e _ he0, if_neg hcond, ht, hbuf2, ihs, hTeq]
    · rw [hbuf, hTeq, hbuf2]
      exact ihf

/-- Indexing a well-formed encoded mimetype list at or past its entry
count raises `IndexError`: the scan reaches the terminating empty entry,
where `find` returns the scan position itself. -/
theorem mimeGetItem_past_len (pre rest : List Nat) (entries : List (List Nat))
    (i : Nat) (hwf : ∀ e ∈ entries, e ≠ [] ∧ ¬ 0 ∈ e)
    (hi : entries.length ≤ i) :
    mimeGetItem (pre ++ mimeEncode entries ++ rest) pre.length (i : Int)
      = .error .indexError := by
  obtain ⟨hskip, hT⟩ := mimeSkip_encode entries pre rest hwf
  obtain ⟨m, hm⟩ : ∃ m, i = entries.length + m := ⟨i - entries.length, by omega⟩
  subst hm
  unfold mimeGetItem
  rw [Int.toNat_natCast,
    mimeSkip_add (pre ++ mimeEncode entries ++ rest) m entries.length pre.length,
    hskip]
  cases m with
  | zero =>
    simp only [mimeSkip]
    rw [if_pos hT]
  | succ k =>
    simp only [mimeSkip]
    rw [if_pos hT]

/-- The double-NUL scan over a NUL-free entry followed by its terminator
and the list terminator finds the pair right after the entry. -/
theorem findPairFrom_terminator (e tail : List Nat) (he : ¬ 0 ∈ e) :
    findPairFrom (e ++ 0 :: 0 :: tail) = some e.length := by
  induction e with
  | nil => simp [findPairFrom]
  | cons x e' ih =>
    have hx : x ≠ 0 := fun h => he (by simp [h])
    have he' : ¬ 0 ∈ e' := fun h => he (List.mem_cons_of_mem _ h)
    cases hsplit : e' ++ 0 :: 0 :: tail with
    | nil => simp at hsplit
    | cons z zs =>
      rw [List.cons_append, hsplit]
      simp only [findPairFrom]
      rw [if_neg (fun hc => hx hc.1), ← hsplit, ih he']
      simp

/-- The double-NUL scan steps over a NUL-free entry and its terminator
when the next entry starts with a non-NUL byte. -/
theorem findPairFrom_skip (e : List Nat) (t : Nat) (ts : List Nat)
    (he : ¬ 0 ∈ e) (ht : t ≠ 0) :
    findPairFrom (e ++ 0 :: t :: ts)
      = (findPairFrom (t :: ts)).map (· + (e.length + 1)) := by
  induction e with
  | nil =>
    simp only [List.nil_append, findPairFrom]
    rw [if_neg (fun hc => ht hc.2)]
    cases findPairFrom (t :: ts) <;> simp
  | cons x e' ih =>
    have hx : x ≠ 0 := fun h => he (by simp [h])
    have he' : ¬ 0 ∈ e' := fun h => he (List.mem_cons_of_mem _ h)
    cases hsplit : e' ++ 0 :: t :: ts with
    | nil => simp at hsplit
    | cons z zs =>
      rw [List.cons_append, hsplit]
      simp only [findPairFrom]
      rw [if_neg (fun hc => hx hc.1), ← hsplit, ih he']
      cases findPairFrom (t :: ts) <;> simp <;> omega

/-- The encoding of any mimetype list is nonempty (it ends with the
terminating NUL). -/
theorem mimeEncode_length_pos (entries : List (List Nat)) :
    1 ≤ (mimeEncode entries).length := by
  cases entries with
  | nil => simp [mimeEncode]
  | cons e es =>
    simp [mimeEncode]
    omega

/-- In a well-formed nonempty encoded mimetype list the first double NUL
sits at the last two bytes of the encoding, position `length - 2`. -/
theorem findPairFrom_encode : ∀ (entries : List (List Nat)) (rest : List Nat),
    (∀ e ∈ entries, e ≠ [] ∧ ¬ 0 ∈ e) → entries ≠ [] →
    findPairFrom (mimeEncode entries ++ rest)
      = some ((mimeEncode entries).length - 2) := by
  intro entries
  induction entries with
  | nil => intro rest _ hne; exact absurd rfl hne
  | cons e es ih =>
    intro rest hwf _
    obtain ⟨hene, he0⟩ := hwf e (List.mem_cons_self e es)
    cases es with
    | nil =>
      have hb : mimeEncode [e] ++ rest = e ++ 0 :: 0 :: rest := by
        simp [mimeEncode]
      have hlen2 : (mimeEncode [e]).length = e.length + 2 := by
        simp [mimeEncode]
      rw [hb, findPairFrom_terminator e rest he0, hlen2]
      congr 1
    | cons e2 es2 =>
      obtain ⟨h2ne, h20⟩ := hwf e2 (by simp)
      cases e2 with
      | nil => exact absurd rfl h2ne
      | cons h2 t2 =>
        have hh2 : h2 ≠ 0 := fun h => h20 (by simp [h])
        have hb1 : mimeEncode (e :: (h2 :: t2) :: es2) ++ rest
            = e ++ 0 :: (mimeEncode ((h2 :: t2) :: es2) ++ rest) := by
          simp [mimeEncode]
        have hb2 : mimeEncode ((h2 :: t2) :: es2) ++ rest
            = h2 :: (t2 ++ 0 :: (mimeEncode es2 ++ rest)) := by
          simp [mimeEncode]
        have hwf2 : ∀ x ∈ (h2 :: t2) :: es2, x ≠ [] ∧ ¬ 0 ∈ x :=
          fun x hx => hwf x (List.mem_cons_of_mem _ hx)
        have hL : (mimeEncode (e :: (h2 :: t2) :: es2)).length
            = e.length + 1 + (mimeEncode ((h2 :: t2) :: es2)).length := by
          simp [mimeEncode]
          omega
        have hL2 : 2 ≤ (mimeEncode ((h2 :: t2) :: es2)).length := by
          have := mimeEncode_length_pos es2
          simp [mimeEncode]
          omega
        rw [hb1, hb2, findPairFrom_skip e h2 _ he0 hh2, ← hb2,
          ih rest hwf2 (by simp), Option.map_some']
        rw [hL]
        congr 1
        omega

/-- Counting NUL bytes over the encoding with its final terminator
removed yields exactly the number of entries (one separator NUL per
entry). -/
theorem count_encode : ∀ (entries : List (List Nat)),
    (∀ e ∈ entries, ¬ 0 ∈ e) →
    ((mimeEncode entries).take ((mimeEncode entries).length - 1)).count 0
      = entries.length := by
  intro entries
  induction entries with
  | nil => simp [mimeEncode]
  | cons e es ih =>
    intro hwf
    have he0 : ¬ 0 ∈ e := hwf e (List.mem_cons_self e es)
    have ihr := ih (fun x hx => hwf x (List.mem_cons_of_mem _ hx))
    have hLes : 1 ≤ (mimeEncode es).length := mimeEncode_length_pos es
    have henc : mimeEncode (e :: es) = e ++ 0 :: mimeEncode es := rfl
    have hlen : (e ++ 0 :: mimeEncode es).length - 1
        = e.length + (mimeEncode es).length := by
      simp
    rw [henc, hlen, List.take_append_eq_append_take,
      List.take_of_length_le (by omega : e.length ≤ e.length + (mimeEncode es).length),
      Nat.add_sub_cancel_left]
    have htake : (0 :: mimeEncode es).take (mimeEncode es).length
        = 0 :: (mimeEncode es).take ((mimeEncode es).length - 1) := by
      have hsplit : (mimeEncode es).length = ((mimeEncode es).length - 1) + 1 := by
        omega
      rw [hsplit, List.take_succ_cons]
      simp
    rw [htake, List.count_append, List.count_eq_zero.mpr he0]
    simp [ihr]

/-- `MimeTypeList.__len__` on a well-formed nonempty encoded mimetype
list returns the number of entries. -/
theorem mimeLen_encode (pre rest : List Nat) (entries : List (List Nat))
    (hwf : ∀ e ∈ entries, e ≠ [] ∧ ¬ 0 ∈ e) (hne : entries ≠ []) :
    mimeLen (pre ++ mimeEncode entries ++ rest) pre.length = entries.length := by
  have hL2 : 2 ≤ (mimeEncode entries).length := by
    cases entries with
    | nil => exact absurd rfl hne
    | cons e es =>
      have h1 := mimeEncode_length_pos es
      have henc : mimeEncode (e :: es) = e ++ 0 :: mimeEncode es := rfl
      rw [henc]
      simp only [List.length_append, List.length_cons]
      omega
  unfold mimeLen findPair
  rw [List.append_assoc, List.drop_left, findPairFrom_encode entries rest hwf hne]
  dsimp only
  have ht : ((((pre.length + ((mimeEncode entries).length - 2) : Nat) : Int)) + 1).toNat
      = pre.length + ((mimeEncode entries).length - 1) := by omega
  rw [ht]
  unfold countByte
  rw [List.take_append_eq_append_take,
    List.take_of_length_le
      (by omega : pre.length ≤ pre.length + ((mimeEncode entries).length - 1)),
    Nat.add_sub_cancel_left, List.drop_left,
    List.take_append_eq_append_take,
    show (mimeEncode entries).length - 1 - (mimeEncode entries).length = 0 from by omega,
    List.take_zero, List.append_nil]
  exact count_encode entries (fun e hx => (hwf e hx).2)

/-- A Python slice cut exactly around a middle segment returns it. -/
theorem pySlice_exact (pre e tail : List Nat) :
    pySlice (pre ++ e ++ tail) ((pre.length : Nat) : Int)
      ((pre.length + e.length : Nat) : Int) = e := by
  unfold pySlice pyIdx
  have hlen : (pre ++ e ++ tail).length = pre.length + e.length + tail.length := by
    simp
    omega
  have hpe : (pre ++ e).length = pre.length + e.length := by simp
  rw [if_neg (by omega : ¬ ((pre.length + e.length : Nat) : Int) < 0),
    if_neg (by omega : ¬ ((pre.length : Nat) : Int) < 0),
    Int.toNat_natCast, Int.toNat_natCast, hlen,
    min_eq_left (by omega), min_eq_left (by omega),
    List.take_append_eq_append_take,
    List.take_of_length_le (by omega : (pre ++ e).length ≤ pre.length + e.length),
    show pre.length + e.length - (pre ++ e).length = 0 from by omega,
    List.take_zero, List.append_nil, List.drop_left]

/-- `MimeTypeList.__getitem__` at index 0 skips nothing: it reads the
entry at the list offset directly. -/
theorem mimeGetItem_zero (buf : List Nat) (offset : Nat) :
    mimeGetItem buf offset 0 =
      (if findByte buf 0 offset = (offset : Int) then .error .indexError
       else .ok (pySlice buf (offset : Int) (findByte buf 0 offset))) := rfl

/-- C10 amended: for every negative index `i`, `MimeTypeList.__getitem__`
behaves exactly as at index 0, because the skip loop over `range(i)` is
empty; in particular on a well-formed nonempty list it returns the first
mimetype string (and on an empty list it raises `IndexError`, exactly as
index 0 does). -/
theorem mimeGetItem_negative :
    (∀ (buf : List Nat) (offset : Nat) (i : Int), i < 0 →
      mimeGetItem buf offset i = mimeGetItem buf offset 0) ∧
    (∀ (pre rest e : List Nat) (es : List (List Nat)) (i : Int), i < 0 →
      e ≠ [] → ¬ 0 ∈ e →
      mimeGetItem (pre ++ mimeEncode (e :: es) ++ rest) pre.length i = .ok e) := by
  have hzero : ∀ (buf : List Nat) (offset : Nat) (i : Int), i < 0 →
      mimeGetItem buf offset i = mimeGetItem buf offset 0 := by
    intro buf offset i h
    unfold mimeGetItem
    rw [Int.toNat_of_nonpos (le_of_lt h)]
    rfl
  refine ⟨hzero, ?_⟩
  intro pre rest e es i hi hene he0
  rw [hzero _ _ _ hi, mimeGetItem_zero]
  have hbuf : pre ++ mimeEncode (e :: es) ++ rest
      = pre ++ (e ++ 0 :: (mimeEncode es ++ rest)) := by
    simp [mimeEncode]
  have hfind : findByte (pre ++ mimeEncode (e :: es) ++ rest) 0 pre.length
      = ((pre.length + e.length : Nat) : Int) := by
    rw [hbuf]
    exact findByte_encode pre e _ he0
  have helen : e.length ≠ 0 := by
    simpa [List.length_eq_zero] using hene
  rw [hfind, if_neg (by
    intro hc
    have h2 : pre.length + e.length = pre.length := by exact_mod_cast hc
    omega)]
  have hbuf2 : pre ++ mimeEncode (e :: es) ++ rest
      = pre ++ e ++ (0 :: (mimeEncode es ++ rest)) := by
    simp [mimeEncode]
  rw [hbuf2, pySlice_exact]

/-- C10 counterexample: on the empty mimetype list (a buffer that starts
with the terminating empty entry), the negative index `-1` does fail
with `IndexError` — it does not return any mimetype string, because
index 0 itself raises. -/
theorem mimeGetItem_negative_empty_list_raises :
    mimeGetItem [0, 0] 0 (-1) = .error .indexError := rfl

/-- Witness for `mimeGetItem_negative`: on the one-entry list `[[7]]`,
index `-1` returns the first entry. -/
theorem mimeGetItem_negative_witness :
    mimeGetItem ([] ++ mimeEncode [[7]] ++ []) 0 (-1) = .ok [7] :=
  mimeGetItem_negative.2 [] [] [7] [] (-1) (by decide) (by decide) (by decide)

/-- The byte sequence encoding the mimetype entries
`["text/html", "image/png", ""]` (UTF-8 bytes, NUL-separated, empty
entry terminating). -/
def c9buf : List Nat :=
  mimeEncode [[116, 101, 120, 116, 47, 104, 116, 109, 108],
              [105, 109, 97, 103, 101, 47, 112, 110, 103]]

/-- C9: on the concrete mimetype list `["text/html", "image/png", ""]`,
`len()` is 2, `get(0)` is `"text/html"`, `get(2)` raises `IndexError`,
and the eager package-version decoder collects exactly the two nonempty
entries; in general `len()` of a well-formed encoded list is its entry
count and `get(index)` raises `IndexError` for every `index ≥ len()`. -/
theorem mimeTypeList_spec :
    (mimeLen c9buf 0 = 2 ∧
     mimeGetItem c9buf 0 0 = .ok [116, 101, 120, 116, 47, 104, 116, 109, 108] ∧
     mimeGetItem c9buf 0 2 = .error .indexError ∧
     MimetypeListDecode c9buf 0 3
       = some [[116, 101, 120, 116, 47, 104, 116, 109, 108],
               [105, 109, 97, 103, 101, 47, 112, 110, 103]]) ∧
    (∀ (pre rest : List Nat) (entries : List (List Nat)),
      (∀ e ∈ entries, e ≠ [] ∧ ¬ 0 ∈ e) → entries ≠ [] →
      mimeLen (pre ++ mimeEncode entries ++ rest) pre.length = entries.length) ∧
    (∀ (pre rest : List Nat) (entries : List (List Nat)) (i : Nat),
      (∀ e ∈ entries, e ≠ [] ∧ ¬ 0 ∈ e) → entries.length ≤ i →
      mimeGetItem (pre ++ mimeEncode entries ++ rest) pre.length (i : Int)
        = .error .indexError) :=
  ⟨⟨rfl, rfl, rfl, rfl⟩,
   fun pre rest entries hwf hne => mimeLen_encode pre rest entries hwf hne,
   fun pre rest entries i hwf hi => mimeGetItem_past_len pre rest entries i hwf hi⟩

/-- Witness for the general clauses of `mimeTypeList_spec` at the
two-entry list `[[1], [2]]` and overflowing index 2. -/
theorem mimeTypeList_spec_witness :
    mimeLen ([] ++ mimeEncode [[1], [2]] ++ []) 0 = 2 ∧
    mimeGetItem ([] ++ mimeEncode [[1], [2]] ++ []) 0 ((2 : Nat) : Int)
      = .error .indexError :=
  ⟨mimeTypeList_spec.2.1 [] [] [[1], [2]] (by decide) (by decide),
   mimeTypeList_spec.2.2 [] [] [[1], [2]] 2 (by decide) (by decide)⟩
